import Mathlib

/-!
Verification development for the config_watcher repository.

The Rust sources are shallowly embedded as pure Lean functions:

- paths (std::path::PathBuf) are lists of components; to_string_lossy is
  rendering with a "/" separator;
- HashMap<K, u64> document hash tables are association lists with the
  HashMap get/insert/remove operations (alistLookup, alistInsert,
  alistRemove); every table built by the code has unique keys;
- the non-cryptographic 64-bit hash hash_str (a thin wrapper over the
  external twox_hash XxHash64) is an opaque pure function and is passed
  as an explicit parameter h : String -> Nat;
- the glob crate Pattern::matches is an opaque predicate gp : String -> Bool;
- reading a file (tokio::fs) is a lookup in an explicit FileSystem value,
  returning Except (WatcherError::FileReadError on a missing path);
- a tokio mpsc send to the downstream DocumentEvent channel can fail when
  the receiver was dropped; the boolean closed models that state.  The
  source reacts to a failed send in three different ways, all modelled
  faithfully: .unwrap() panics (TaskOutcome.panicked), .ok() silently
  drops the event, .map_err(..)? propagates a task-fatal error
  (TaskOutcome.fatal);
- async functions are pure functions; the cooperative select loops are
  folds over the list of received events.
-/

namespace ConfigWatcher

/-- DocumentEvent from src/backend/mod.rs: the contract between the source
adapters and the item diff engine. -/
inductive DocumentEvent where
  | NewDocument (id content : String)
  | ContentChanged (id content : String)
  | DocumentRemoved (id : String)
deriving DecidableEq, Repr

/-- WatcherCommand from src/backend/mod.rs. -/
inductive WatcherCommand where
  | Start
  | Stop
deriving DecidableEq, Repr

/-- Paths as component lists; PathBuf in the source. -/
abbrev FsPath := List String

/-- to_string_lossy of a PathBuf. -/
def pathToString (p : FsPath) : String :=
  String.intercalate "/" p

/-- WatcherError from src/watcher.rs, restricted to the variants the
embedded code can produce. -/
inductive WatcherError where
  | FileReadError (p : FsPath)
  | Notify (msg : String)
deriving DecidableEq, Repr

/-- Outcome of one step of an adapter task: normal return, a propagated
task-fatal error (the ? operator), or a thread panic (.unwrap() on Err). -/
inductive TaskOutcome (α : Type) where
  | ok (a : α)
  | fatal (e : WatcherError)
  | panicked
deriving DecidableEq, Repr

/-- HashMap::get on an association list. -/
def alistLookup {κ α : Type} [DecidableEq κ] : List (κ × α) → κ → Option α
  | [], _ => none
  | (k, v) :: rest, key => if k = key then some v else alistLookup rest key

/-- HashMap::insert on an association list (replaces the value of an
existing key, otherwise appends). -/
def alistInsert {κ α : Type} [DecidableEq κ] : List (κ × α) → κ → α → List (κ × α)
  | [], key, val => [(key, val)]
  | (k, v) :: rest, key, val =>
      if k = key then (key, val) :: rest else (k, v) :: alistInsert rest key val

/-- HashMap::remove on an association list: the removed value (if any) and
the remaining entries. -/
def alistRemove {κ α : Type} [DecidableEq κ] : List (κ × α) → κ → Option α × List (κ × α)
  | [], _ => (none, [])
  | (k, v) :: rest, key =>
      if k = key then (some v, rest)
      else
        let r := alistRemove rest key
        (r.1, (k, v) :: r.2)

/-- HashMap::contains_key on an association list. -/
def alistContains {κ α : Type} [DecidableEq κ] (m : List (κ × α)) (key : κ) : Bool :=
  (alistLookup m key).isSome

/-- Dropping the first entry of a given key, keeping the rest. -/
def alistEraseKey {κ α : Type} [DecidableEq κ] : List (κ × α) → κ → List (κ × α)
  | [], _ => []
  | (k, v) :: rest, key => if k = key then rest else (k, v) :: alistEraseKey rest key

theorem alistRemove_eq {κ α : Type} [DecidableEq κ] (m : List (κ × α)) (key : κ) :
    alistRemove m key = (alistLookup m key, alistEraseKey m key) := by
  induction m with
  | nil => rfl
  | cons kv rest ih =>
      obtain ⟨k, v⟩ := kv
      by_cases hk : k = key
      · simp [alistRemove, alistLookup, alistEraseKey, hk]
      · simp [alistRemove, alistLookup, alistEraseKey, hk, ih]

/-!
Filesystem source adapter, src/backend/config_file_watcher.rs.
-/

/-- The observable kinds classified by handle_fs_event.  createFile is
EventKind::Create(CreateKind::File), modifyData is
EventKind::Modify(ModifyKind::Data(_)), accessCloseWrite is
EventKind::Access(AccessKind::Close(AccessMode::Write)), removeFile is
EventKind::Remove(RemoveKind::File), and the rename kinds are
EventKind::Modify(ModifyKind::Name(mode)). -/
inductive FsEventKind where
  | createFile
  | modifyData
  | accessCloseWrite
  | removeFile
  | renameTo
  | renameFrom
  | renameBoth
  | renameOther
  | otherKind
deriving DecidableEq, Repr

/-- A debounced event: its kind and its path list. -/
structure FsEvent where
  kind : FsEventKind
  paths : List FsPath
deriving DecidableEq, Repr

/-- The directory contents visible to read_file: path to file content. -/
abbrev FileSystem := List (FsPath × String)

/-- read_file: opening and reading a file, an io error on a missing path
(modelled as a lookup failure). -/
def read_file (fs : FileSystem) (p : FsPath) : Except WatcherError String :=
  match alistLookup fs p with
  | some c => Except.ok c
  | none => Except.error (WatcherError.FileReadError p)

/-- Path::strip_prefix on component lists. -/
def stripRoot : FsPath → FsPath → Option FsPath
  | [], p => some p
  | _ :: _, [] => none
  | r :: rs, x :: xs => if r = x then stripRoot rs xs else none

/-- match_path: some path of the event, relativized to the watch root,
matches the glob pattern; a path that fails to strip the root counts as
non-matching. -/
def match_path (root : FsPath) (gp : String → Bool) (ev : FsEvent) : Bool :=
  ev.paths.any fun p =>
    match stripRoot root p with
    | some rel => gp (pathToString rel)
    | none => false

/-- The content-observation block of handle_fs_event, appearing verbatim in
both the Create/Modify/Close(Write) arm and the RenameMode::To arm: hash
the freshly read content, then the new-file / changed / unchanged
three-way decision on the file_hashes table.  The optional DocumentEvent
is what the block sends. -/
def observe_path_content (h : String → Nat) (file_hashes : List (FsPath × Nat))
    (path : FsPath) (content : String) : List (FsPath × Nat) × Option DocumentEvent :=
  let new_hash := h content
  match alistLookup file_hashes path with
  | some existing_hash =>
      if existing_hash ≠ new_hash then
        (alistInsert file_hashes path new_hash,
         some (DocumentEvent.ContentChanged (pathToString path) content))
      else (file_hashes, none)
  | none =>
      (alistInsert file_hashes path new_hash,
       some (DocumentEvent.NewDocument (pathToString path) content))

/-- The removal block of handle_fs_event, appearing verbatim in the
Remove(File) arm and the RenameMode::From arm: emit DocumentRemoved only
when file_hashes.remove returned Some. -/
def remove_path (file_hashes : List (FsPath × Nat)) (path : FsPath) :
    List (FsPath × Nat) × Option DocumentEvent :=
  match alistRemove file_hashes path with
  | (some _, rest) => (rest, some (DocumentEvent.DocumentRemoved (pathToString path)))
  | (none, _) => (file_hashes, none)

/-- One debounced event of handle_fs_event.  closed models the state of the
downstream event channel: every send in this function is .unwrap()ed in the
source, hence panics when the receiver was dropped.  The accumulated sent
list mirrors the sends performed so far. -/
def handle_one_fs_event (h : String → Nat) (gp : String → Bool) (fs : FileSystem)
    (closed : Bool) (watch_path : FsPath) (file_hashes : List (FsPath × Nat))
    (sent : List DocumentEvent) (event : FsEvent) :
    TaskOutcome (List (FsPath × Nat) × List DocumentEvent) :=
  if match_path watch_path gp event then
    match event.kind with
    | FsEventKind.createFile | FsEventKind.modifyData | FsEventKind.accessCloseWrite =>
        match event.paths.head? with
        | none => TaskOutcome.ok (file_hashes, sent)
        | some path =>
            match read_file fs path with
            | Except.error e => TaskOutcome.fatal e
            | Except.ok content =>
                match observe_path_content h file_hashes path content with
                | (hashes2, some ev) =>
                    if closed then TaskOutcome.panicked
                    else TaskOutcome.ok (hashes2, sent ++ [ev])
                | (hashes2, none) => TaskOutcome.ok (hashes2, sent)
    | FsEventKind.removeFile | FsEventKind.renameFrom =>
        match event.paths.head? with
        | none => TaskOutcome.ok (file_hashes, sent)
        | some path =>
            match remove_path file_hashes path with
            | (hashes2, some ev) =>
                if closed then TaskOutcome.panicked
                else TaskOutcome.ok (hashes2, sent ++ [ev])
            | (hashes2, none) => TaskOutcome.ok (hashes2, sent)
    | FsEventKind.renameTo =>
        match event.paths.head? with
        | none => TaskOutcome.ok (file_hashes, sent)
        | some path =>
            match read_file fs path with
            | Except.error e => TaskOutcome.fatal e
            | Except.ok content =>
                match observe_path_content h file_hashes path content with
                | (hashes2, some ev) =>
                    if closed then TaskOutcome.panicked
                    else TaskOutcome.ok (hashes2, sent ++ [ev])
                | (hashes2, none) => TaskOutcome.ok (hashes2, sent)
    | FsEventKind.renameBoth =>
        match event.paths with
        | pfrom :: pto :: _ =>
            match alistRemove file_hashes pfrom with
            | (some _, rest) =>
                if closed then TaskOutcome.panicked
                else
                  let sent1 := sent ++ [DocumentEvent.DocumentRemoved (pathToString pfrom)]
                  match read_file fs pfrom with
                  | Except.error e => TaskOutcome.fatal e
                  | Except.ok content =>
                      let new_hash := h content
                      let hashes2 := alistInsert rest pto new_hash
                      if closed then TaskOutcome.panicked
                      else
                        TaskOutcome.ok (hashes2,
                          sent1 ++ [DocumentEvent.NewDocument (pathToString pto) content])
            | (none, _) => TaskOutcome.ok (file_hashes, sent)
        | _ => TaskOutcome.ok (file_hashes, sent)
    | _ => TaskOutcome.ok (file_hashes, sent)
  else TaskOutcome.ok (file_hashes, sent)

/-- The for loop of handle_fs_event over one debounced batch, threading the
table and the sent events; a fatal error or a panic aborts the batch. -/
def handle_fs_events_list (h : String → Nat) (gp : String → Bool) (fs : FileSystem)
    (closed : Bool) (watch_path : FsPath) :
    List FsEvent → List (FsPath × Nat) → List DocumentEvent →
    TaskOutcome (List (FsPath × Nat) × List DocumentEvent)
  | [], file_hashes, sent => TaskOutcome.ok (file_hashes, sent)
  | event :: rest, file_hashes, sent =>
      match handle_one_fs_event h gp fs closed watch_path file_hashes sent event with
      | TaskOutcome.ok (hashes2, sent2) =>
          handle_fs_events_list h gp fs closed watch_path rest hashes2 sent2
      | TaskOutcome.fatal e => TaskOutcome.fatal e
      | TaskOutcome.panicked => TaskOutcome.panicked

/-- handle_fs_event: an Err result from the debouncer is only logged. -/
def handle_fs_event (h : String → Nat) (gp : String → Bool) (fs : FileSystem)
    (closed : Bool) (watch_path : FsPath)
    (res : Except (List String) (List FsEvent)) (file_hashes : List (FsPath × Nat)) :
    TaskOutcome (List (FsPath × Nat) × List DocumentEvent) :=
  match res with
  | Except.ok events => handle_fs_events_list h gp fs closed watch_path events file_hashes []
  | Except.error _ => TaskOutcome.ok (file_hashes, [])

/-- find_matching_files: the WalkDir enumeration is the entries parameter;
a file is kept when its path relative to the watch root matches the glob
pattern, and the full path is what is collected. -/
def find_matching_files (watch_path : FsPath) (gp : String → Bool)
    (entries : List FsPath) : List FsPath :=
  entries.filter fun p =>
    match stripRoot watch_path p with
    | some rel => gp (pathToString rel)
    | none => false

/-- The loop body of initial_file_search: read each matching file, record
its hash under the full path, send NewDocument; a read failure or a send
failure (mapped to WatcherError::Notify by the source) is task-fatal. -/
def initial_file_search_go (h : String → Nat) (fs : FileSystem) (closed : Bool) :
    List FsPath → List (FsPath × Nat) → List DocumentEvent →
    TaskOutcome (List (FsPath × Nat) × List DocumentEvent)
  | [], file_hashes, sent => TaskOutcome.ok (file_hashes, sent)
  | file :: rest, file_hashes, sent =>
      match read_file fs file with
      | Except.error e => TaskOutcome.fatal e
      | Except.ok content =>
          let hashes2 := alistInsert file_hashes file (h content)
          if closed then TaskOutcome.fatal (WatcherError.Notify "Failed to send event")
          else
            initial_file_search_go h fs closed rest hashes2
              (sent ++ [DocumentEvent.NewDocument (pathToString file) content])

/-- initial_file_search over an explicit directory enumeration. -/
def initial_file_search (h : String → Nat) (fs : FileSystem) (closed : Bool)
    (watch_path : FsPath) (gp : String → Bool) (entries : List FsPath) :
    TaskOutcome (List (FsPath × Nat) × List DocumentEvent) :=
  initial_file_search_go h fs closed (find_matching_files watch_path gp entries) [] []

/-- The common task entry of run_config_file_watcher, run_configmap_watcher
and run_mqtt_watcher (the block appears verbatim in all three): the task
first awaits one command on its capacity-1 command channel; Stop, or a
closed channel, returns Ok immediately, before any scan, subscription or
event loop, so nothing is ever sent; only Start lets the task proceed.
The rest parameter stands for whatever the task would do once started, as
a result carrying the list of DocumentEvents sent. -/
def watcher_task_entry (first : Option WatcherCommand)
    (rest : TaskOutcome (List DocumentEvent)) : TaskOutcome (List DocumentEvent) :=
  match first with
  | some WatcherCommand.Stop => TaskOutcome.ok []
  | none => TaskOutcome.ok []
  | some WatcherCommand.Start => rest

/-!
MQTT source adapter, src/backend/config_mqtt_watcher.rs (the Publish arm
of the event loop).
-/

/-- The decoded-payload block of the Publish arm (the same new-file /
changed / unchanged three-way decision on the topic table; the id sent is
the topic itself). -/
def mqtt_observe_topic (h : String → Nat) (hashes : List (String × Nat))
    (topic content : String) : List (String × Nat) × Option DocumentEvent :=
  let new_hash := h content
  match alistLookup hashes topic with
  | some existing_hash =>
      if existing_hash ≠ new_hash then
        (alistInsert hashes topic new_hash,
         some (DocumentEvent.ContentChanged topic content))
      else (hashes, none)
  | none =>
      (alistInsert hashes topic new_hash,
       some (DocumentEvent.NewDocument topic content))

/-- The Publish arm of run_mqtt_watcher.  The payload is a byte list; utf8
is String::from_utf8 (a decode failure is logged and the message dropped).
An empty payload is the deletion signal.  Every send is .unwrap()ed, hence
panics when the receiver was dropped (closed). -/
def mqtt_handle_publish (h : String → Nat) (utf8 : List Nat → Option String)
    (closed : Bool) (hashes : List (String × Nat)) (topic : String)
    (payload : List Nat) : TaskOutcome (List (String × Nat) × List DocumentEvent) :=
  if payload.isEmpty then
    match alistRemove hashes topic with
    | (some _, rest) =>
        if closed then TaskOutcome.panicked
        else TaskOutcome.ok (rest, [DocumentEvent.DocumentRemoved topic])
    | (none, _) => TaskOutcome.ok (hashes, [])
  else
    match utf8 payload with
    | none => TaskOutcome.ok (hashes, [])
    | some content =>
        match mqtt_observe_topic h hashes topic content with
        | (hashes2, some ev) =>
            if closed then TaskOutcome.panicked
            else TaskOutcome.ok (hashes2, [ev])
        | (hashes2, none) => TaskOutcome.ok (hashes2, [])

/-!
Kubernetes ConfigMap source adapter, src/backend/config_map_watcher.rs.
-/

/-- handle_configmap_update: the first for loop walks the reconciled
key-value map (a BTreeMap, iterated in sorted key order; the caller passes
it here as a list in that order), building new_hashes and emitting
NewDocument / ContentChanged; the second for loop then emits
DocumentRemoved for every previously tracked key absent from the new map;
finally the table is wholesale replaced by new_hashes.  Every send result
is discarded with .ok(): when the receiver was dropped (closed) events are
silently lost and the function still completes. -/
def handle_configmap_update (h : String → Nat) (closed : Bool)
    (new_data : List (String × String)) (file_hashes : List (String × Nat)) :
    List (String × Nat) × List DocumentEvent :=
  let step :=
    new_data.foldl
      (fun (acc : List (String × Nat) × List DocumentEvent) kv =>
        let new_hash := h kv.2
        let new_hashes := alistInsert acc.1 kv.1 new_hash
        match alistLookup file_hashes kv.1 with
        | some existing_hash =>
            if existing_hash ≠ new_hash then
              (new_hashes,
               if closed then acc.2
               else acc.2 ++ [DocumentEvent.ContentChanged kv.1 kv.2])
            else (new_hashes, acc.2)
        | none =>
            (new_hashes,
             if closed then acc.2
             else acc.2 ++ [DocumentEvent.NewDocument kv.1 kv.2]))
      ([], [])
  let removals :=
    file_hashes.filterMap fun kv =>
      if alistContains new_data kv.1 then none
      else some (DocumentEvent.DocumentRemoved kv.1)
  (step.1, step.2 ++ (if closed then [] else removals))

/-!
Item diff engine, src/config_item_watcher.rs.
-/

/-- ConfigItemHash: a composite (filenameHash, itemHash) key. -/
structure ConfigItemHash where
  fst : Nat
  snd : Nat
deriving DecidableEq, Repr

/-- Accessor filename_hash of ConfigItemHash. -/
def ConfigItemHash.filename_hash (x : ConfigItemHash) : Nat := x.fst

/-- Accessor item_hash of ConfigItemHash. -/
def ConfigItemHash.item_hash (x : ConfigItemHash) : Nat := x.snd

/-- ConfigItemEvent over the caller-supplied deserialized item type. -/
inductive ConfigItemEvent (T : Type) where
  | NewDocument (docIdHash : Nat) (filename : String)
  | RemoveDocument (docIdHash : Nat)
  | New (hash : ConfigItemHash) (item : T)
  | Removed (hash : ConfigItemHash)
deriving DecidableEq, Repr

/-- HashSet::retain with the side channel the source uses: the element is
kept when keep is true; a dropped element pushes a Removed event, in
encounter order. -/
def retain_push {T : Type} (keep : ConfigItemHash → Bool) :
    List ConfigItemHash → List ConfigItemHash × List (ConfigItemEvent T)
  | [] => ([], [])
  | x :: xs =>
      let r := retain_push (T := T) keep xs
      if keep x then (x :: r.1, r.2) else (r.1, ConfigItemEvent.Removed x :: r.2)

/-- str::trim of Rust: drop leading and trailing whitespace, computed over
the character list. -/
def trimStr (s : String) : String :=
  String.mk (((s.data.dropWhile Char.isWhitespace).reverse.dropWhile
    Char.isWhitespace).reverse)

/-- The trim / drop-empty chain of process_file: the surviving item texts
in tokenizer order. -/
def surviving_items (tok : String → List String) (content : String) : List String :=
  ((tok content).map trimStr).filter fun d => !d.isEmpty

/-- The iterator feeding collect in process_file: a deserialization
failure drops that item only. -/
def processedItems {T : Type} (h : String → Nat) (tok : String → List String)
    (des : String → Option T) (content : String) : List (Nat × T) :=
  (surviving_items tok content).filterMap fun d =>
    (des d).map fun item => (h d, item)

/-- collect::<HashMap<u64, T>>(): inserting every pair in order; a later
pair with an already present key overwrites its value. -/
def collectHashMap {T : Type} (l : List (Nat × T)) : List (Nat × T) :=
  l.foldl (fun m kv => alistInsert m kv.1 kv.2) []

/-- The additions for loop of process_file: for each new item, HashSet
insert; a fresh insertion pushes a New event. -/
def insert_new {T : Type} (filename_hash : Nat) :
    List (Nat × T) → List ConfigItemHash → List ConfigItemHash × List (ConfigItemEvent T)
  | [], s => (s, [])
  | (k, it) :: rest, s =>
      let hsh : ConfigItemHash := ⟨filename_hash, k⟩
      if hsh ∈ s then insert_new filename_hash rest s
      else
        let r := insert_new filename_hash rest (hsh :: s)
        (r.1, ConfigItemEvent.New hsh it :: r.2)

/-- process_file: build the new item map, drop (with Removed events) every
tracked hash of this file whose item hash is gone, then insert (with New
events) every new hash; removals are pushed before insertions. -/
def process_file {T : Type} (h : String → Nat) (tok : String → List String)
    (des : String → Option T) (filename content : String)
    (item_hashes : List ConfigItemHash) :
    List ConfigItemHash × List (ConfigItemEvent T) :=
  let filename_hash := h filename
  let new_items := collectHashMap (processedItems h tok des content)
  let kept :=
    retain_push (T := T)
      (fun hash => (hash.fst != filename_hash) || alistContains new_items hash.snd)
      item_hashes
  let ins := insert_new filename_hash new_items kept.1
  (ins.1, kept.2 ++ ins.2)

/-- file_removed: drop every tracked hash whose filenameHash component is
hash_str(filename), pushing Removed events. -/
def file_removed {T : Type} (h : String → Nat) (filename : String)
    (item_hashes : List ConfigItemHash) :
    List ConfigItemHash × List (ConfigItemEvent T) :=
  retain_push (T := T) (fun hash => hash.fst != h filename) item_hashes

/-- handle_config_file_event: NewDocument prepends the lifecycle marker to
the process_file batch (at index 0); ContentChanged forwards the batch
unchanged; DocumentRemoved appends the RemoveDocument marker after the
Removed events. -/
def handle_config_file_event {T : Type} (h : String → Nat)
    (tok : String → List String) (des : String → Option T)
    (event : DocumentEvent) (item_hashes : List ConfigItemHash) :
    List ConfigItemHash × List (ConfigItemEvent T) :=
  match event with
  | DocumentEvent.NewDocument filename content =>
      let r := process_file h tok des filename content item_hashes
      (r.1, ConfigItemEvent.NewDocument (h filename) filename :: r.2)
  | DocumentEvent.ContentChanged filename content =>
      process_file h tok des filename content item_hashes
  | DocumentEvent.DocumentRemoved filename =>
      let r := file_removed (T := T) h filename item_hashes
      (r.1, r.2 ++ [ConfigItemEvent.RemoveDocument (h filename)])

/-- The document id carried by a DocumentEvent. -/
def docEventId : DocumentEvent → String
  | DocumentEvent.NewDocument id _ => id
  | DocumentEvent.ContentChanged id _ => id
  | DocumentEvent.DocumentRemoved id => id

/-- Hashes of the New item events of a batch. -/
def newItemHashes {T : Type} (l : List (ConfigItemEvent T)) : List ConfigItemHash :=
  l.filterMap fun e =>
    match e with
    | ConfigItemEvent.New x _ => some x
    | _ => none

/-- The item hash an event is about, for New and Removed events. -/
def eventItemHash {T : Type} : ConfigItemEvent T → Option ConfigItemHash
  | ConfigItemEvent.New x _ => some x
  | ConfigItemEvent.Removed x => some x
  | _ => none

/-!
Spec-side definitions (section 4.2 of the spec), for the refinement claim
C1 only.  They follow the words of the spec, not the source.
-/

/-- Modelled from the spec: the shared document-level three-way decision
for a new content observation: unseen id gives NewDocument, seen id with
changed hash gives ContentChanged and updates the table, seen id with
unchanged hash gives no event.  render turns the table key into the id
string the event carries. -/
def spec_observe {κ : Type} [DecidableEq κ] (render : κ → String) (h : String → Nat)
    (table : List (κ × Nat)) (k : κ) (content : String) :
    List (κ × Nat) × Option DocumentEvent :=
  match alistLookup table k with
  | none =>
      (alistInsert table k (h content), some (DocumentEvent.NewDocument (render k) content))
  | some old =>
      if old = h content then (table, none)
      else (alistInsert table k (h content),
            some (DocumentEvent.ContentChanged (render k) content))

/-- Modelled from the spec: removal deletes a tracked id and emits
DocumentRemoved, and does nothing for an untracked id. -/
def spec_remove {κ : Type} [DecidableEq κ] (render : κ → String)
    (table : List (κ × Nat)) (k : κ) : List (κ × Nat) × Option DocumentEvent :=
  if alistContains table k then
    (alistEraseKey table k, some (DocumentEvent.DocumentRemoved (render k)))
  else (table, none)

theorem observe_path_content_eq_spec (h : String → Nat)
    (file_hashes : List (FsPath × Nat)) (p : FsPath) (content : String) :
    observe_path_content h file_hashes p content =
      spec_observe pathToString h file_hashes p content := by
  unfold observe_path_content spec_observe
  cases halist : alistLookup file_hashes p with
  | none => simp
  | some old =>
      by_cases he : old = h content
      · simp [he]
      · simp [he]

theorem mqtt_observe_topic_eq_spec (h : String → Nat)
    (hashes : List (String × Nat)) (topic content : String) :
    mqtt_observe_topic h hashes topic content =
      spec_observe (fun s => s) h hashes topic content := by
  unfold mqtt_observe_topic spec_observe
  cases halist : alistLookup hashes topic with
  | none => simp
  | some old =>
      by_cases he : old = h content
      · simp [he]
      · simp [he]

theorem remove_path_eq_spec (file_hashes : List (FsPath × Nat)) (p : FsPath) :
    remove_path file_hashes p = spec_remove pathToString file_hashes p := by
  unfold remove_path spec_remove alistContains
  rw [alistRemove_eq]
  cases halist : alistLookup file_hashes p with
  | none => simp
  | some v => simp

/-- Claim C1: each of the two event-driven adapters applies the same
three-way document diff to every new content observation (unseen id gives
NewDocument, tracked id with changed hash updates the table and gives
ContentChanged, tracked id with unchanged hash gives nothing) and the same
removal rule (delete and emit DocumentRemoved exactly when the id was
tracked): the content-observation and removal blocks of the filesystem
adapter, and the Publish arm of the MQTT adapter (for a decoded payload,
and for the empty deletion payload), all equal the spec-level three-way
decision. -/
theorem c1_three_way_document_diff :
    (∀ (h : String → Nat) (file_hashes : List (FsPath × Nat)) (p : FsPath)
        (content : String),
        observe_path_content h file_hashes p content =
          spec_observe pathToString h file_hashes p content)
    ∧ (∀ (file_hashes : List (FsPath × Nat)) (p : FsPath),
        remove_path file_hashes p = spec_remove pathToString file_hashes p)
    ∧ (∀ (h : String → Nat) (hashes : List (String × Nat)) (topic content : String),
        mqtt_observe_topic h hashes topic content =
          spec_observe (fun s => s) h hashes topic content)
    ∧ (∀ (h : String → Nat) (utf8 : List Nat → Option String)
        (hashes : List (String × Nat)) (topic : String),
        mqtt_handle_publish h utf8 false hashes topic [] =
          TaskOutcome.ok ((spec_remove (fun s => s) hashes topic).1,
            (spec_remove (fun s => s) hashes topic).2.toList)) := by
  refine ⟨observe_path_content_eq_spec, remove_path_eq_spec,
    mqtt_observe_topic_eq_spec, ?_⟩
  intro h utf8 hashes topic
  unfold mqtt_handle_publish spec_remove alistContains
  rw [alistRemove_eq]
  cases halist : alistLookup hashes topic with
  | none => simp
  | some v => simp

/-!
Concrete stand-ins used to evaluate the embedding: a simple stand-in for
the opaque 64-bit hash (any pure function fits the parameter), glob
predicates, and small directory contents.
-/

/-- A concrete stand-in for the opaque hash parameter. -/
def hLen : String → Nat := String.length

/-- A glob pattern matching everything. -/
def gpAll : String → Bool := fun _ => true

/-- A glob pattern matching exactly the relative path a.yaml. -/
def gpYaml : String → Bool := fun s => s == "a.yaml"

/-- Directory contents right before an atomic-save rename: the stale
source a.tmp still readable, the destination a.yaml with the new bytes. -/
def fsBoth : FileSystem :=
  [(["w", "a.tmp"], "oldc"), (["w", "a.yaml"], "newc")]

/-- Directory contents right after an atomic-save rename: the source
a.tmp is gone. -/
def fsAfter : FileSystem := [(["w", "a.yaml"], "newc")]

/-- A single matching file under the watch root. -/
def fsScan : FileSystem := [(["w", "a.yaml"], "x")]

/-- One readable file; bad.yaml is absent. -/
def fsGood : FileSystem := [(["w", "good.yaml"], "ok")]

/-- Claim C9: a Stop received as the first command (which is what stop()
delivers on the capacity-1 command channel when called before any start())
makes the adapter task return Ok immediately: it never enters its running
loop (the result does not depend on what the loop would have done) and no
DocumentEvent is ever emitted.  A closed command channel behaves the
same. -/
theorem c9_stop_before_start :
    ∀ rest : TaskOutcome (List DocumentEvent),
      watcher_task_entry (some WatcherCommand.Stop) rest = TaskOutcome.ok []
      ∧ watcher_task_entry none rest = TaskOutcome.ok [] :=
  fun _ => ⟨rfl, rfl⟩

/-- Claim C2 (code bug): on a RenameMode::Both event the source reads the
content at the SOURCE path (its own comment says it computes the hash for
the to file), and gates the whole block on the source id being tracked.
With the stale source still readable the adapter emits NewDocument for the
destination carrying the SOURCE content oldc although the destination file
holds newc; once the source path is really gone (the normal state after a
rename) the read fails and the task dies with a fatal FileReadError for
the source path; and with an untracked source nothing at all is emitted,
not even the NewDocument for the destination. -/
theorem c2_rename_both_reads_source :
    handle_one_fs_event hLen gpAll fsBoth false ["w"] [(["w", "a.tmp"], 7)] []
        { kind := FsEventKind.renameBoth, paths := [["w", "a.tmp"], ["w", "a.yaml"]] } =
      TaskOutcome.ok ([(["w", "a.yaml"], 4)],
        [DocumentEvent.DocumentRemoved "w/a.tmp",
         DocumentEvent.NewDocument "w/a.yaml" "oldc"])
    ∧ handle_one_fs_event hLen gpAll fsAfter false ["w"] [(["w", "a.tmp"], 7)] []
        { kind := FsEventKind.renameBoth, paths := [["w", "a.tmp"], ["w", "a.yaml"]] } =
      TaskOutcome.fatal (WatcherError.FileReadError ["w", "a.tmp"])
    ∧ handle_one_fs_event hLen gpAll fsBoth false ["w"] [] []
        { kind := FsEventKind.renameBoth, paths := [["w", "a.tmp"], ["w", "a.yaml"]] } =
      TaskOutcome.ok ([], []) := by
  refine ⟨?_, ?_, ?_⟩ <;> rfl

/-- Claim C8 (code bug): a failed send to the dropped downstream receiver
is an unconditional panic in the filesystem adapter and in the MQTT
adapter (.unwrap() on the send result), and is silently swallowed by the
ConfigMap adapter (.ok() on the send result, which still replaces the
table and completes normally); none of the three converts it into a
propagated task-fatal error. -/
theorem c8_send_failure_behavior :
    handle_one_fs_event hLen gpAll [] true ["w"] [(["w", "a.yaml"], 3)] []
        { kind := FsEventKind.removeFile, paths := [["w", "a.yaml"]] } =
      TaskOutcome.panicked
    ∧ mqtt_handle_publish hLen (fun _ => some "x") true [] "t" [65] =
      TaskOutcome.panicked
    ∧ handle_configmap_update hLen true [("z", "3")] [] = ([("z", 1)], []) := by
  refine ⟨?_, ?_, ?_⟩ <;> rfl

/-- Claim C6 counterexample: on the reconciled transition from keys
x to 1 and y to 2, to x to 1 and z to 3, the adapter emits
NewDocument z before DocumentRemoved y (the additions loop runs before
the removals loop), not the claimed DocumentRemoved-then-NewDocument
order. -/
theorem c6_configmap_order_counterexample :
    (handle_configmap_update hLen false [("x", "1"), ("z", "3")]
        [("x", 1), ("y", 1)]).2 =
      [DocumentEvent.NewDocument "z" "3", DocumentEvent.DocumentRemoved "y"]
    ∧ (handle_configmap_update hLen false [("x", "1"), ("z", "3")]
        [("x", 1), ("y", 1)]).2 ≠
      [DocumentEvent.DocumentRemoved "y", DocumentEvent.NewDocument "z" "3"] := by
  constructor
  · rfl
  · decide

/-- Claim C6 amended: reconciling the full-state push taking the tracked
keys x to 1 and y to 2, to x to 1 and z to 3, emits NewDocument(z, 3)
followed by DocumentRemoved(y) (additions before removals), with no event
for the unchanged key x, and replaces the table by the new hash set; this
holds for every hash function parameter. -/
theorem c6_configmap_scenario_amended :
    ∀ h : String → Nat,
      handle_configmap_update h false [("x", "1"), ("z", "3")]
          [("x", h "1"), ("y", h "2")] =
        ([("x", h "1"), ("z", h "3")],
         [DocumentEvent.NewDocument "z" "3", DocumentEvent.DocumentRemoved "y"]) := by
  intro h
  simp [handle_configmap_update, alistLookup, alistInsert, alistContains]

theorem stripRoot_append (root rel : FsPath) : stripRoot root (root ++ rel) = some rel := by
  induction root with
  | nil => rfl
  | cons r rs ih => simp [stripRoot, ih]

/-- Claim C5 counterexample: deleting the tracked matching file a.yaml
under the watch root w emits DocumentRemoved with id w/a.yaml, the full
path, not the claimed root-relative id a.yaml; the initial scan likewise
announces the file as w/a.yaml. -/
theorem c5_full_path_counterexample :
    initial_file_search hLen fsScan false ["w"] gpYaml [["w", "a.yaml"]] =
      TaskOutcome.ok ([(["w", "a.yaml"], 1)],
        [DocumentEvent.NewDocument "w/a.yaml" "x"])
    ∧ handle_one_fs_event hLen gpYaml fsScan false ["w"] [(["w", "a.yaml"], 9)] []
        { kind := FsEventKind.removeFile, paths := [["w", "a.yaml"]] } =
      TaskOutcome.ok ([], [DocumentEvent.DocumentRemoved "w/a.yaml"])
    ∧ DocumentEvent.DocumentRemoved "w/a.yaml" ≠
      DocumentEvent.DocumentRemoved "a.yaml" := by
  refine ⟨rfl, rfl, ?_⟩
  decide

/-- Claim C5 amended: every DocumentEvent of the filesystem adapter
carries the to_string_lossy rendering of the FULL stored path (watch root
joined with the relative path) as its document id, while the glob pattern
is matched against the root-relative path; this holds in the initial scan
and in the live remove branch alike. -/
theorem c5_full_path_id (h : String → Nat) (gp : String → Bool) (root rel : FsPath)
    (c : String) (fs : FileSystem)
    (hmatch : gp (pathToString rel) = true)
    (hfs : read_file fs (root ++ rel) = Except.ok c) :
    initial_file_search h fs false root gp [root ++ rel] =
      TaskOutcome.ok ([(root ++ rel, h c)],
        [DocumentEvent.NewDocument (pathToString (root ++ rel)) c])
    ∧ ∀ hv : Nat,
        handle_one_fs_event h gp fs false root [(root ++ rel, hv)] []
            { kind := FsEventKind.removeFile, paths := [root ++ rel] } =
          TaskOutcome.ok ([], [DocumentEvent.DocumentRemoved (pathToString (root ++ rel))]) := by
  constructor
  · unfold initial_file_search find_matching_files
    simp only [List.filter_cons, List.filter_nil, stripRoot_append, hmatch, if_pos]
    unfold initial_file_search_go
    rw [hfs]
    simp [initial_file_search_go, alistInsert]
  · intro hv
    unfold handle_one_fs_event
    have hm : match_path root gp
        { kind := FsEventKind.removeFile, paths := [root ++ rel] } = true := by
      simp [match_path, stripRoot_append, hmatch]
    rw [if_pos hm]
    simp [remove_path, alistRemove]

/-- Witness for c5_full_path_id at a concrete input. -/
theorem c5_full_path_id_witness :
    initial_file_search hLen fsScan false ["w"] gpYaml [["w"] ++ ["a.yaml"]] =
      TaskOutcome.ok ([(["w"] ++ ["a.yaml"], 1)],
        [DocumentEvent.NewDocument (pathToString (["w"] ++ ["a.yaml"])) "x"])
    ∧ handle_one_fs_event hLen gpYaml fsScan false ["w"] [(["w"] ++ ["a.yaml"], 7)] []
        { kind := FsEventKind.removeFile, paths := [["w"] ++ ["a.yaml"]] } =
      TaskOutcome.ok ([],
        [DocumentEvent.DocumentRemoved (pathToString (["w"] ++ ["a.yaml"]))]) :=
  ⟨(c5_full_path_id hLen gpYaml ["w"] ["a.yaml"] "x" fsScan (by decide) rfl).1,
   (c5_full_path_id hLen gpYaml ["w"] ["a.yaml"] "x" fsScan (by decide) rfl).2 7⟩

/-- Claim C7 counterexample: in a live debounced batch, a failed read of
bad.yaml makes handle_fs_event return a fatal FileReadError: the batch is
aborted (the readable good.yaml later in the same batch is never processed
and emits nothing) and the select loop propagates the error, terminating
the adapter task, instead of logging and skipping the file. -/
theorem c7_read_failure_counterexample :
    handle_fs_event hLen gpAll fsGood false ["w"]
        (Except.ok
          [{ kind := FsEventKind.createFile, paths := [["w", "bad.yaml"]] },
           { kind := FsEventKind.createFile, paths := [["w", "good.yaml"]] }]) [] =
      TaskOutcome.fatal (WatcherError.FileReadError ["w", "bad.yaml"]) := by
  rfl

/-- Claim C7 amended: a failure to read a file while processing a live
filesystem notification is escalated, not skipped: for any of the four
content-reading kinds (create, data-modify, close-after-write, rename-to)
the error is returned as the task-fatal result of the batch, and the
remaining events of the batch are not processed. -/
theorem c7_read_failure_fatal (h : String → Nat) (gp : String → Bool) (fs : FileSystem)
    (closed : Bool) (root : FsPath) (file_hashes : List (FsPath × Nat))
    (sent : List DocumentEvent) (p : FsPath) (rest : List FsEvent) (e : WatcherError)
    (hmatch : match_path root gp { kind := FsEventKind.createFile, paths := [p] } = true)
    (hread : read_file fs p = Except.error e) :
    handle_fs_events_list h gp fs closed root
        ({ kind := FsEventKind.createFile, paths := [p] } :: rest) file_hashes sent =
      TaskOutcome.fatal e
    ∧ handle_fs_events_list h gp fs closed root
        ({ kind := FsEventKind.modifyData, paths := [p] } :: rest) file_hashes sent =
      TaskOutcome.fatal e
    ∧ handle_fs_events_list h gp fs closed root
        ({ kind := FsEventKind.accessCloseWrite, paths := [p] } :: rest) file_hashes sent =
      TaskOutcome.fatal e
    ∧ handle_fs_events_list h gp fs closed root
        ({ kind := FsEventKind.renameTo, paths := [p] } :: rest) file_hashes sent =
      TaskOutcome.fatal e := by
  have hm : ∀ k : FsEventKind,
      match_path root gp { kind := k, paths := [p] } = true := fun k => hmatch
  refine ⟨?_, ?_, ?_, ?_⟩ <;>
    · unfold handle_fs_events_list handle_one_fs_event
      rw [hm]
      simp [hread]

/-- Witness for c7_read_failure_fatal at a concrete input. -/
theorem c7_read_failure_fatal_witness :
    handle_fs_events_list hLen gpAll fsGood false ["w"]
        [{ kind := FsEventKind.createFile, paths := [["w", "bad.yaml"]] }] [] [] =
      TaskOutcome.fatal (WatcherError.FileReadError ["w", "bad.yaml"]) :=
  (c7_read_failure_fatal hLen gpAll fsGood false ["w"] [] [] ["w", "bad.yaml"] []
    (WatcherError.FileReadError ["w", "bad.yaml"]) (by decide) rfl).1

/-!
Structure lemmas for the item diff engine.
-/

/-- Whether an event is a Removed item event. -/
def isRemovedEvent {T : Type} : ConfigItemEvent T → Bool
  | ConfigItemEvent.Removed _ => true
  | _ => false

/-- Whether an event is a New item event. -/
def isNewItemEvent {T : Type} : ConfigItemEvent T → Bool
  | ConfigItemEvent.New _ _ => true
  | _ => false

theorem retain_push_mem_removed {T : Type} (keep : ConfigItemHash → Bool)
    (l : List ConfigItemHash) :
    ∀ e ∈ (retain_push (T := T) keep l).2,
      ∃ x, e = ConfigItemEvent.Removed x ∧ keep x = false ∧ x ∈ l := by
  induction l with
  | nil => intro e he; simp [retain_push] at he
  | cons x xs ih =>
      intro e he
      by_cases hk : keep x = true
      · simp [retain_push, hk] at he
        obtain ⟨y, hy, hkf, hmem⟩ := ih e he
        exact ⟨y, hy, hkf, List.mem_cons_of_mem _ hmem⟩
      · rw [Bool.not_eq_true] at hk
        simp [retain_push, hk] at he
        rcases he with he | he
        · exact ⟨x, he, hk, List.mem_cons_self x xs⟩
        · obtain ⟨y, hy, hkf, hmem⟩ := ih e he
          exact ⟨y, hy, hkf, List.mem_cons_of_mem _ hmem⟩

theorem retain_push_fst_subset {T : Type} (keep : ConfigItemHash → Bool)
    (l : List ConfigItemHash) :
    ∀ x ∈ (retain_push (T := T) keep l).1, x ∈ l := by
  induction l with
  | nil => intro x hx; simp [retain_push] at hx
  | cons y ys ih =>
      intro x hx
      by_cases hk : keep y = true
      · simp [retain_push, hk] at hx
        rcases hx with hx | hx
        · exact hx ▸ List.mem_cons_self y ys
        · exact List.mem_cons_of_mem _ (ih x hx)
      · rw [Bool.not_eq_true] at hk
        simp [retain_push, hk] at hx
        exact List.mem_cons_of_mem _ (ih x hx)

theorem retain_push_kept_mem {T : Type} (keep : ConfigItemHash → Bool)
    (l : List ConfigItemHash) (x : ConfigItemHash) (hx : x ∈ l)
    (hk : keep x = true) : x ∈ (retain_push (T := T) keep l).1 := by
  induction l with
  | nil => simp at hx
  | cons y ys ih =>
      rcases List.mem_cons.mp hx with hy | hy
      · subst hy
        simp [retain_push, hk]
      · by_cases hky : keep y = true
        · simp [retain_push, hky]
          exact Or.inr (ih hy)
        · rw [Bool.not_eq_true] at hky
          simp [retain_push, hky]
          exact ih hy

theorem insert_new_mem_new {T : Type} (fh : Nat) (items : List (Nat × T))
    (s : List ConfigItemHash) :
    ∀ e ∈ (insert_new (T := T) fh items s).2,
      ∃ k it, e = ConfigItemEvent.New ⟨fh, k⟩ it ∧ k ∈ items.map Prod.fst := by
  induction items generalizing s with
  | nil => intro e he; simp [insert_new] at he
  | cons kv rest ih =>
      obtain ⟨k, it⟩ := kv
      intro e he
      by_cases hmem : (⟨fh, k⟩ : ConfigItemHash) ∈ s
      · simp [insert_new, hmem] at he
        obtain ⟨k2, it2, hy, hk2⟩ := ih _ e he
        exact ⟨k2, it2, hy, by simp [hk2]⟩
      · simp [insert_new, hmem] at he
        rcases he with he | he
        · exact ⟨k, it, he, by simp⟩
        · obtain ⟨k2, it2, hy, hk2⟩ := ih _ e he
          exact ⟨k2, it2, hy, by simp [hk2]⟩

theorem insert_new_mem_preserve {T : Type} (fh : Nat) (items : List (Nat × T))
    (s : List ConfigItemHash) (x : ConfigItemHash) (hx : x ∈ s) :
    x ∈ (insert_new (T := T) fh items s).1 := by
  induction items generalizing s with
  | nil => simpa [insert_new] using hx
  | cons kv rest ih =>
      obtain ⟨k, it⟩ := kv
      by_cases hmem : (⟨fh, k⟩ : ConfigItemHash) ∈ s
      · simpa [insert_new, hmem] using ih _ hx
      · simpa [insert_new, hmem] using ih _ (List.mem_cons_of_mem _ hx)

theorem insert_new_skip {T : Type} (fh k : Nat) (it : T) (rest : List (Nat × T))
    (s : List ConfigItemHash) (hmem : (⟨fh, k⟩ : ConfigItemHash) ∈ s) :
    insert_new (T := T) fh ((k, it) :: rest) s = insert_new (T := T) fh rest s := by
  simp [insert_new, hmem]

theorem insert_new_step {T : Type} (fh k : Nat) (it : T) (rest : List (Nat × T))
    (s : List ConfigItemHash) (hmem : (⟨fh, k⟩ : ConfigItemHash) ∉ s) :
    insert_new (T := T) fh ((k, it) :: rest) s =
      ((insert_new (T := T) fh rest ((⟨fh, k⟩ : ConfigItemHash) :: s)).1,
       ConfigItemEvent.New ⟨fh, k⟩ it ::
         (insert_new (T := T) fh rest ((⟨fh, k⟩ : ConfigItemHash) :: s)).2) := by
  simp [insert_new, hmem]

theorem insert_new_stable {T : Type} (fh : Nat) (items : List (Nat × T))
    (s : List ConfigItemHash) (x : ConfigItemHash) (hx : x ∈ s) :
    (newItemHashes (insert_new (T := T) fh items s).2).count x = 0
    ∧ (insert_new (T := T) fh items s).1.count x = s.count x := by
  induction items generalizing s with
  | nil => simp [insert_new, newItemHashes]
  | cons kv rest ih =>
      obtain ⟨k, it⟩ := kv
      by_cases hmem : (⟨fh, k⟩ : ConfigItemHash) ∈ s
      · rw [insert_new_skip fh k it rest s hmem]
        exact ih s hx
      · have hne : (⟨fh, k⟩ : ConfigItemHash) ≠ x := fun hcontra => hmem (hcontra ▸ hx)
        have hx2 : x ∈ (⟨fh, k⟩ : ConfigItemHash) :: s := List.mem_cons_of_mem _ hx
        obtain ⟨ih1, ih2⟩ := ih ((⟨fh, k⟩ : ConfigItemHash) :: s) hx2
        rw [insert_new_step fh k it rest s hmem]
        constructor
        · simpa [newItemHashes, List.count_cons, hne] using ih1
        · rw [ih2]
          simp [List.count_cons, hne]

theorem insert_new_fresh {T : Type} (fh k : Nat) (items : List (Nat × T))
    (s : List ConfigItemHash) (hk : k ∈ items.map Prod.fst)
    (hx : (⟨fh, k⟩ : ConfigItemHash) ∉ s) :
    (newItemHashes (insert_new (T := T) fh items s).2).count ⟨fh, k⟩ = 1
    ∧ (insert_new (T := T) fh items s).1.count ⟨fh, k⟩ = s.count ⟨fh, k⟩ + 1 := by
  induction items generalizing s with
  | nil => simp at hk
  | cons kv rest ih =>
      obtain ⟨k2, it⟩ := kv
      rw [List.map_cons] at hk
      by_cases hmem : (⟨fh, k2⟩ : ConfigItemHash) ∈ s
      · have hne : k2 ≠ k := fun hcontra => hx (hcontra ▸ hmem)
        have hk2 : k ∈ rest.map Prod.fst := by
          rcases List.mem_cons.mp hk with hc | hc
          · exact absurd hc.symm hne
          · exact hc
        rw [insert_new_skip fh k2 it rest s hmem]
        exact ih s hk2 hx
      · by_cases hkk : k2 = k
        · subst hkk
          have hx2 : (⟨fh, k2⟩ : ConfigItemHash) ∈ (⟨fh, k2⟩ : ConfigItemHash) :: s :=
            List.mem_cons_self _ _
          obtain ⟨st1, st2⟩ := insert_new_stable fh rest _ _ hx2
          rw [insert_new_step fh k2 it rest s hmem]
          constructor
          · simpa [newItemHashes, List.count_cons] using st1
          · rw [st2]
            simp [List.count_cons, List.count_eq_zero.mpr hx]
        · have hne : (⟨fh, k2⟩ : ConfigItemHash) ≠ ⟨fh, k⟩ := by
            intro hcontra
            exact hkk (by injection hcontra)
          have hk2 : k ∈ rest.map Prod.fst := by
            rcases List.mem_cons.mp hk with hc | hc
            · exact absurd hc.symm hkk
            · exact hc
          have hx2 : (⟨fh, k⟩ : ConfigItemHash) ∉ (⟨fh, k2⟩ : ConfigItemHash) :: s := by
            intro hcontra
            rcases List.mem_cons.mp hcontra with hc | hc
            · exact hne hc.symm
            · exact hx hc
          obtain ⟨ih1, ih2⟩ := ih ((⟨fh, k2⟩ : ConfigItemHash) :: s) hk2 hx2
          rw [insert_new_step fh k2 it rest s hmem]
          constructor
          · simpa [newItemHashes, List.count_cons, hne] using ih1
          · rw [ih2]
            simp [List.count_cons, hne]

theorem alistContains_iff {κ α : Type} [DecidableEq κ] (m : List (κ × α)) (key : κ) :
    alistContains m key = true ↔ key ∈ m.map Prod.fst := by
  induction m with
  | nil => simp [alistContains, alistLookup]
  | cons kv rest ih =>
      obtain ⟨k, v⟩ := kv
      by_cases hk : k = key
      · simp [alistContains, alistLookup, hk]
      · simp only [alistContains, alistLookup, if_neg hk, List.map_cons, List.mem_cons]
        rw [alistContains] at ih
        rw [ih]
        constructor
        · exact Or.inr
        · rintro (hc | hc)
          · exact absurd hc.symm hk
          · exact hc

theorem alistInsert_keys {κ α : Type} [DecidableEq κ] (m : List (κ × α)) (k : κ) (v : α)
    (key : κ) : key ∈ (alistInsert m k v).map Prod.fst ↔ key = k ∨ key ∈ m.map Prod.fst := by
  induction m with
  | nil => simp [alistInsert]
  | cons kv rest ih =>
      obtain ⟨k2, v2⟩ := kv
      by_cases hk : k2 = k
      · subst hk
        simp [alistInsert]
      · simp only [alistInsert, if_neg hk, List.map_cons, List.mem_cons, ih]
        tauto

theorem collectHashMap_keys {T : Type} (l : List (Nat × T)) (k : Nat) :
    k ∈ (collectHashMap l).map Prod.fst ↔ k ∈ l.map Prod.fst := by
  have main : ∀ (l : List (Nat × T)) (m0 : List (Nat × T)),
      (k ∈ (l.foldl (fun m kv => alistInsert m kv.1 kv.2) m0).map Prod.fst ↔
        k ∈ l.map Prod.fst ∨ k ∈ m0.map Prod.fst) := by
    intro l
    induction l with
    | nil => intro m0; simp
    | cons kv rest ih =>
        intro m0
        simp only [List.foldl_cons, List.map_cons, List.mem_cons, ih, alistInsert_keys]
        tauto
  rw [collectHashMap, main l []]
  simp

theorem removed_not_new {T : Type} (e : ConfigItemEvent T)
    (he : isRemovedEvent e = true) : isNewItemEvent e = false := by
  cases e <;> simp_all [isRemovedEvent, isNewItemEvent]

theorem new_not_removed {T : Type} (e : ConfigItemEvent T)
    (he : isNewItemEvent e = true) : isRemovedEvent e = false := by
  cases e <;> simp_all [isRemovedEvent, isNewItemEvent]

/-- The events of process_file split into its Removed events followed by
its New events. -/
theorem process_file_events_split {T : Type} (h : String → Nat)
    (tok : String → List String) (des : String → Option T)
    (filename content : String) (S : List ConfigItemHash) :
    ∃ a b, (process_file h tok des filename content S).2 = a ++ b
      ∧ (∀ e ∈ a, isRemovedEvent e = true) ∧ (∀ e ∈ b, isNewItemEvent e = true) := by
  refine ⟨_, _, rfl, ?_, ?_⟩
  · intro e he
    obtain ⟨x, hx, _, _⟩ := retain_push_mem_removed _ _ e he
    subst hx
    rfl
  · intro e he
    obtain ⟨k, it, hx, _⟩ := insert_new_mem_new _ _ _ e he
    subst hx
    rfl

theorem split_filter {T : Type} (a b : List (ConfigItemEvent T))
    (ha : ∀ e ∈ a, isRemovedEvent e = true) (hb : ∀ e ∈ b, isNewItemEvent e = true) :
    a ++ b = (a ++ b).filter isRemovedEvent ++ (a ++ b).filter isNewItemEvent := by
  rw [List.filter_append, List.filter_append]
  rw [List.filter_eq_self.mpr ha, List.filter_eq_self.mpr hb]
  rw [show b.filter isRemovedEvent = [] from
    List.filter_eq_nil_iff.mpr fun e he => by simp [new_not_removed e (hb e he)]]
  rw [show a.filter isNewItemEvent = [] from
    List.filter_eq_nil_iff.mpr fun e he => by simp [removed_not_new e (ha e he)]]
  simp

/-- Claim C3: batch ordering of the item diff engine.  A NewDocument batch
is the lifecycle marker followed by exactly what a ContentChanged batch
for the same document would be (so the marker is announced only for the
NewDocument case and precedes all item events of the batch); a
ContentChanged batch consists of item events only, with every Removed
event before every New event; a DocumentRemoved batch is its Removed
events followed by the RemoveDocument marker. -/
theorem c3_batch_event_ordering :
    ∀ (T : Type) (h : String → Nat) (tok : String → List String)
      (des : String → Option T) (S : List ConfigItemHash) (id content : String),
      (handle_config_file_event h tok des (DocumentEvent.NewDocument id content) S).2 =
        ConfigItemEvent.NewDocument (h id) id ::
          (handle_config_file_event h tok des (DocumentEvent.ContentChanged id content) S).2
      ∧ ((handle_config_file_event h tok des (DocumentEvent.ContentChanged id content) S).2.all
          fun e => isRemovedEvent e || isNewItemEvent e) = true
      ∧ (handle_config_file_event h tok des (DocumentEvent.ContentChanged id content) S).2 =
          (handle_config_file_event h tok des
              (DocumentEvent.ContentChanged id content) S).2.filter isRemovedEvent ++
            (handle_config_file_event h tok des
              (DocumentEvent.ContentChanged id content) S).2.filter isNewItemEvent
      ∧ (handle_config_file_event h tok des (DocumentEvent.DocumentRemoved id) S).2 =
          (handle_config_file_event h tok des
              (DocumentEvent.DocumentRemoved id) S).2.filter isRemovedEvent ++
            [ConfigItemEvent.RemoveDocument (h id)] := by
  intro T h tok des S id content
  obtain ⟨a, b, hab, ha, hb⟩ := process_file_events_split h tok des id content S
  have hchanged : (handle_config_file_event h tok des
      (DocumentEvent.ContentChanged id content) S).2 = a ++ b := hab
  refine ⟨rfl, ?_, ?_, ?_⟩
  · rw [hchanged, List.all_eq_true]
    intro e he
    rcases List.mem_append.mp he with he | he
    · simp [ha e he]
    · simp [hb e he]
  · rw [hchanged]
    exact split_filter a b ha hb
  · have hrem : (handle_config_file_event (T := T) h tok des
        (DocumentEvent.DocumentRemoved id) S).2 =
          (file_removed (T := T) h id S).2 ++ [ConfigItemEvent.RemoveDocument (h id)] := rfl
    have hfr : ∀ e ∈ (file_removed (T := T) h id S).2, isRemovedEvent e = true := by
      intro e he
      obtain ⟨x, hx, _, _⟩ := retain_push_mem_removed _ _ e he
      subst hx
      rfl
    rw [hrem, List.filter_append, List.filter_eq_self.mpr hfr]
    simp [isRemovedEvent]

theorem process_file_removed_fst {T : Type} (h : String → Nat)
    (tok : String → List String) (des : String → Option T)
    (filename content : String) (S : List ConfigItemHash) (x : ConfigItemHash)
    (hmem : ConfigItemEvent.Removed x ∈ (process_file h tok des filename content S).2) :
    x.fst = h filename := by
  rcases List.mem_append.mp hmem with hc | hc
  · obtain ⟨y, hy, hkf, _⟩ := retain_push_mem_removed _ _ _ hc
    injection hy with hxy
    subst hxy
    obtain ⟨h1, _⟩ := Bool.or_eq_false_iff.mp hkf
    exact bne_eq_false_iff_eq.mp h1
  · obtain ⟨k, it, hy, _⟩ := insert_new_mem_new _ _ _ _ hc
    simp at hy

theorem process_file_new_fst {T : Type} (h : String → Nat)
    (tok : String → List String) (des : String → Option T)
    (filename content : String) (S : List ConfigItemHash) (x : ConfigItemHash) (it1 : T)
    (hmem : ConfigItemEvent.New x it1 ∈ (process_file h tok des filename content S).2) :
    x.fst = h filename := by
  rcases List.mem_append.mp hmem with hc | hc
  · obtain ⟨y, hy, _, _⟩ := retain_push_mem_removed _ _ _ hc
    simp at hy
  · obtain ⟨k, it2, hy, _⟩ := insert_new_mem_new _ _ _ _ hc
    have : x = ⟨h filename, k⟩ := by injection hy with h1 h2
    rw [this]

theorem process_file_preserves {T : Type} (h : String → Nat)
    (tok : String → List String) (des : String → Option T)
    (filename content : String) (S : List ConfigItemHash) (x : ConfigItemHash)
    (hx : x ∈ S) (hfst : x.fst ≠ h filename) :
    x ∈ (process_file h tok des filename content S).1 := by
  have hkeep : ((x.fst != h filename) ||
      alistContains (collectHashMap (processedItems h tok des content)) x.snd) = true := by
    rw [bne_iff_ne.mpr hfst]
    rfl
  exact insert_new_mem_preserve _ _ _ _ (retain_push_kept_mem _ _ _ hx hkeep)

theorem file_removed_removed_fst {T : Type} (h : String → Nat) (filename : String)
    (S : List ConfigItemHash) (x : ConfigItemHash)
    (hmem : ConfigItemEvent.Removed x ∈ (file_removed (T := T) h filename S).2) :
    x.fst = h filename := by
  obtain ⟨y, hy, hkf, _⟩ := retain_push_mem_removed _ _ _ hmem
  injection hy with hxy
  subst hxy
  exact bne_eq_false_iff_eq.mp hkf

theorem file_removed_preserves {T : Type} (h : String → Nat) (filename : String)
    (S : List ConfigItemHash) (x : ConfigItemHash)
    (hx : x ∈ S) (hfst : x.fst ≠ h filename) :
    x ∈ (file_removed (T := T) h filename S).1 := by
  exact retain_push_kept_mem _ _ _ hx (bne_iff_ne.mpr hfst)

/-- Claim C4: item isolation across documents.  Under distinct document-id
hashes, a New item event of one document never carries the same
ConfigItemHash as a New item event of another document, even for identical
item texts (every emitted item hash has the filenameHash of its own
document); and processing any DocumentEvent for one document id never
emits a Removed event for, nor drops from the ItemHashSet, a hash whose
filenameHash component differs from that document-id hash. -/
theorem c4_item_isolation (T : Type) (h : String → Nat) (tok : String → List String)
    (des : String → Option T) (id1 id2 c1c c2c : String)
    (S1 S2 : List ConfigItemHash) (hne : h id1 ≠ h id2) :
    (∀ (x : ConfigItemHash) (it1 : T) (y : ConfigItemHash) (it2 : T),
        ConfigItemEvent.New x it1 ∈ (process_file h tok des id1 c1c S1).2 →
        ConfigItemEvent.New y it2 ∈ (process_file h tok des id2 c2c S2).2 →
        x ≠ y)
    ∧ (∀ (ev : DocumentEvent) (x : ConfigItemHash),
        docEventId ev = id1 →
        ConfigItemEvent.Removed x ∈ (handle_config_file_event h tok des ev S1).2 →
        x.filename_hash = h id1)
    ∧ (∀ (ev : DocumentEvent) (x : ConfigItemHash),
        x ∈ S1 → x.filename_hash ≠ h (docEventId ev) →
        x ∈ (handle_config_file_event h tok des ev S1).1) := by
  refine ⟨?_, ?_, ?_⟩
  · intro x it1 y it2 hx hy
    have h1 : x.fst = h id1 := process_file_new_fst h tok des id1 c1c S1 x it1 hx
    have h2 : y.fst = h id2 := process_file_new_fst h tok des id2 c2c S2 y it2 hy
    intro hcontra
    rw [hcontra] at h1
    exact hne (h1 ▸ h2.symm ▸ rfl)
  · intro ev x hid hmem
    cases ev with
    | NewDocument f c =>
        have hf : f = id1 := hid
        subst hf
        have hmem2 : ConfigItemEvent.Removed x ∈
            ConfigItemEvent.NewDocument (h f) f :: (process_file h tok des f c S1).2 := hmem
        rcases List.mem_cons.mp hmem2 with hc | hc
        · simp at hc
        · exact process_file_removed_fst h tok des f c S1 x hc
    | ContentChanged f c =>
        have hf : f = id1 := hid
        subst hf
        exact process_file_removed_fst h tok des f c S1 x hmem
    | DocumentRemoved f =>
        have hf : f = id1 := hid
        subst hf
        have hmem2 : ConfigItemEvent.Removed x ∈
            (file_removed (T := T) h f S1).2 ++ [ConfigItemEvent.RemoveDocument (h f)] := hmem
        rcases List.mem_append.mp hmem2 with hc | hc
        · exact file_removed_removed_fst h f S1 x hc
        · simp at hc
  · intro ev x hx hfst
    cases ev with
    | NewDocument f c => exact process_file_preserves h tok des f c S1 x hx hfst
    | ContentChanged f c => exact process_file_preserves h tok des f c S1 x hx hfst
    | DocumentRemoved f => exact file_removed_preserves h f S1 x hx hfst

/-- A concrete hash stand-in separating the ids a and b. -/
def hW : String → Nat := fun s => if s = "a" then 1 else 2

/-- A tokenizer stand-in returning the whole document as one item. -/
def tokW : String → List String := fun c => [c]

/-- A deserializer stand-in that always succeeds. -/
def desW : String → Option String := fun s => some s

/-- Witness for c4_item_isolation at a concrete input: the documents a and
b both contain the single item text it; their New item hashes differ, and
removing document a only emits Removed hashes with the filenameHash of
a. -/
theorem c4_item_isolation_witness :
    ConfigItemHash.mk 1 2 ≠ ConfigItemHash.mk 2 2
    ∧ (ConfigItemHash.mk 1 9).filename_hash = hW "a" :=
  ⟨(c4_item_isolation String hW tokW desW "a" "b" "it" "it"
      [ConfigItemHash.mk 1 9] [] (by decide)).1
      (ConfigItemHash.mk 1 2) "it" (ConfigItemHash.mk 2 2) "it" (by decide) (by decide),
   (c4_item_isolation String hW tokW desW "a" "b" "it" "it"
      [ConfigItemHash.mk 1 9] [] (by decide)).2.1
      (DocumentEvent.DocumentRemoved "a") (ConfigItemHash.mk 1 9) rfl (by decide)⟩

theorem newItemHashes_append {T : Type} (a b : List (ConfigItemEvent T)) :
    newItemHashes (a ++ b) = newItemHashes a ++ newItemHashes b :=
  List.filterMap_append a b _

theorem newItemHashes_cons_marker {T : Type} (d : Nat) (fn : String)
    (l : List (ConfigItemEvent T)) :
    newItemHashes (ConfigItemEvent.NewDocument d fn :: l) = newItemHashes l := by
  simp [newItemHashes]

theorem newItemHashes_retain_nil {T : Type} (keep : ConfigItemHash → Bool)
    (l : List ConfigItemHash) :
    newItemHashes (retain_push (T := T) keep l).2 = [] := by
  refine List.filterMap_eq_nil_iff.mpr fun e he => ?_
  obtain ⟨y, hy, _, _⟩ := retain_push_mem_removed _ _ e he
  subst hy
  rfl

theorem mem_processedItems {T : Type} (h : String → Nat) (tok : String → List String)
    (des : String → Option T) (content t : String) (it : T)
    (hmem : t ∈ surviving_items tok content) (hdes : des t = some it) :
    ((h t, it) : Nat × T) ∈ processedItems h tok des content :=
  List.mem_filterMap.mpr ⟨t, hmem, by rw [hdes]; rfl⟩

theorem key_mem_collect {T : Type} (h : String → Nat) (tok : String → List String)
    (des : String → Option T) (content t : String) (it : T)
    (hmem : t ∈ surviving_items tok content) (hdes : des t = some it) :
    h t ∈ (collectHashMap (processedItems h tok des content)).map Prod.fst :=
  (collectHashMap_keys _ _).mpr
    (List.mem_map.mpr ⟨_, mem_processedItems h tok des content t it hmem hdes, rfl⟩)

/-- Claim C10: duplicate item texts inside one document collapse into a
single ConfigItemHash.  When the item text t survives tokenization of
document content c1c at least twice (and deserializes), processing
NewDocument emits exactly one New event with hash (hash fname, hash t) and
the ItemHashSet tracks exactly one entry for it; and a later
ContentChanged edit whose tokenization still contains t at least once
emits no event at all for that hash. -/
theorem c10_duplicate_collapse {T : Type} (h : String → Nat)
    (tok : String → List String) (des : String → Option T)
    (fname c1c c2c t : String) (it : T) (S : List ConfigItemHash)
    (hdes : des t = some it)
    (hdup : 2 ≤ (surviving_items tok c1c).count t)
    (hnotin : (⟨h fname, h t⟩ : ConfigItemHash) ∉ S)
    (hkeep : t ∈ surviving_items tok c2c) :
    (newItemHashes (handle_config_file_event h tok des
        (DocumentEvent.NewDocument fname c1c) S).2).count ⟨h fname, h t⟩ = 1
    ∧ ((handle_config_file_event h tok des
        (DocumentEvent.NewDocument fname c1c) S).1).count ⟨h fname, h t⟩ = 1
    ∧ ∀ e ∈ (handle_config_file_event h tok des (DocumentEvent.ContentChanged fname c2c)
          (handle_config_file_event h tok des
            (DocumentEvent.NewDocument fname c1c) S).1).2,
        eventItemHash e ≠ some ⟨h fname, h t⟩ := by
  have hmem_t : t ∈ surviving_items tok c1c := by
    by_contra hc
    have h0 := List.count_eq_zero.mpr hc
    omega
  have hk1 : h t ∈ (collectHashMap (processedItems h tok des c1c)).map Prod.fst :=
    key_mem_collect h tok des c1c t it hmem_t hdes
  have hxkept : (⟨h fname, h t⟩ : ConfigItemHash) ∉
      (retain_push (T := T) (fun hash => (hash.fst != h fname) ||
        alistContains (collectHashMap (processedItems h tok des c1c)) hash.snd) S).1 :=
    fun hc => hnotin (retain_push_fst_subset _ _ _ hc)
  obtain ⟨hf1, hf2⟩ := insert_new_fresh (h fname) (h t)
    (collectHashMap (processedItems h tok des c1c))
    ((retain_push (T := T) (fun hash => (hash.fst != h fname) ||
      alistContains (collectHashMap (processedItems h tok des c1c)) hash.snd) S).1)
    hk1 hxkept
  have hcount2 : ((handle_config_file_event h tok des
      (DocumentEvent.NewDocument fname c1c) S).1).count ⟨h fname, h t⟩ = 1 := by
    simp only [handle_config_file_event, process_file]
    rw [hf2, List.count_eq_zero.mpr hxkept]
  refine ⟨?_, hcount2, ?_⟩
  · simp only [handle_config_file_event, process_file]
    rw [newItemHashes_cons_marker, newItemHashes_append, newItemHashes_retain_nil,
      List.nil_append]
    exact hf1
  · have hxS1 : (⟨h fname, h t⟩ : ConfigItemHash) ∈
        (handle_config_file_event h tok des
          (DocumentEvent.NewDocument fname c1c) S).1 := by
      rw [← List.count_pos_iff, hcount2]
      omega
    have hcont2 : alistContains (collectHashMap (processedItems h tok des c2c)) (h t)
        = true :=
      (alistContains_iff _ _).mpr (key_mem_collect h tok des c2c t it hkeep hdes)
    have hkeep2x : (((ConfigItemHash.mk (h fname) (h t)).fst != h fname) ||
        alistContains (collectHashMap (processedItems h tok des c2c))
          (ConfigItemHash.mk (h fname) (h t)).snd) = true := by
      rw [show (ConfigItemHash.mk (h fname) (h t)).snd = h t from rfl, hcont2]
      simp
    have hxkept2 : (⟨h fname, h t⟩ : ConfigItemHash) ∈
        (retain_push (T := T) (fun hash => (hash.fst != h fname) ||
          alistContains (collectHashMap (processedItems h tok des c2c)) hash.snd)
          ((handle_config_file_event h tok des
            (DocumentEvent.NewDocument fname c1c) S).1)).1 :=
      retain_push_kept_mem _ _ _ hxS1 hkeep2x
    obtain ⟨hs1, _⟩ := insert_new_stable (h fname)
      (collectHashMap (processedItems h tok des c2c))
      ((retain_push (T := T) (fun hash => (hash.fst != h fname) ||
        alistContains (collectHashMap (processedItems h tok des c2c)) hash.snd)
        ((handle_config_file_event h tok des
          (DocumentEvent.NewDocument fname c1c) S).1)).1)
      (⟨h fname, h t⟩ : ConfigItemHash) hxkept2
    intro e he
    have he2 : e ∈ (retain_push (T := T) (fun hash => (hash.fst != h fname) ||
        alistContains (collectHashMap (processedItems h tok des c2c)) hash.snd)
        ((handle_config_file_event h tok des
          (DocumentEvent.NewDocument fname c1c) S).1)).2 ++
        (insert_new (h fname) (collectHashMap (processedItems h tok des c2c))
          ((retain_push (T := T) (fun hash => (hash.fst != h fname) ||
            alistContains (collectHashMap (processedItems h tok des c2c)) hash.snd)
            ((handle_config_file_event h tok des
              (DocumentEvent.NewDocument fname c1c) S).1)).1)).2 := he
    rcases List.mem_append.mp he2 with hc | hc
    · obtain ⟨y, hy, hkf, _⟩ := retain_push_mem_removed _ _ e hc
      subst hy
      intro hcontra
      have hyx : y = ⟨h fname, h t⟩ := by
        simpa [eventItemHash] using hcontra
      rw [hyx] at hkf
      rw [hkeep2x] at hkf
      simp at hkf
    · obtain ⟨k2, it2, hy, _⟩ := insert_new_mem_new _ _ _ e hc
      subst hy
      intro hcontra
      have hyx : (⟨h fname, k2⟩ : ConfigItemHash) = ⟨h fname, h t⟩ := by
        simpa [eventItemHash] using hcontra
      have hxmem : (⟨h fname, h t⟩ : ConfigItemHash) ∈
          newItemHashes (insert_new (h fname)
            (collectHashMap (processedItems h tok des c2c))
            ((retain_push (T := T) (fun hash => (hash.fst != h fname) ||
              alistContains (collectHashMap (processedItems h tok des c2c)) hash.snd)
              ((handle_config_file_event h tok des
                (DocumentEvent.NewDocument fname c1c) S).1)).1)).2 :=
        List.mem_filterMap.mpr ⟨_, hc, by rw [hyx]⟩
      have := List.count_eq_zero.mp hs1
      exact this hxmem

/-- A tokenizer stand-in: document d1 tokenizes to the duplicate items
a, a, b; every other document tokenizes to the single item a. -/
def tokD : String → List String := fun c => if c = "d1" then ["a", "a", "b"] else ["a"]

/-- Witness for c10_duplicate_collapse at a concrete input: document d1
holds the item text a twice; one New event and one tracked entry result
for its hash. -/
theorem c10_duplicate_collapse_witness :
    (newItemHashes (handle_config_file_event hW tokD desW
        (DocumentEvent.NewDocument "f" "d1") []).2).count ⟨2, 1⟩ = 1
    ∧ ((handle_config_file_event hW tokD desW
        (DocumentEvent.NewDocument "f" "d1") []).1).count ⟨2, 1⟩ = 1 :=
  ⟨(c10_duplicate_collapse hW tokD desW "f" "d1" "d2" "a" "a" []
      rfl (by decide) (by decide) (by decide)).1,
   (c10_duplicate_collapse hW tokD desW "f" "d1" "d2" "a" "a" []
      rfl (by decide) (by decide) (by decide)).2.1⟩

end ConfigWatcher
